import Mathlib

/-!
# Swxfll operator: the reconcile loop and the Deployment synthesizer

A shallow embedding of `internal/controller/swxfll_controller.go` and of the
types of `api/v1alpha1/swxfll_types.go`.

* Kubernetes objects are records holding the fields the controller reads or
  writes.
* The API store behind `client.Client` is a record of functions over an
  abstract store state; every call `Reconcile` makes is appended to a call
  log together with the source line that issued it and the error it returned.
* The library helpers the controller calls (`meta.SetStatusCondition`,
  `controllerutil.*Finalizer`, `apierrors.IsNotFound`, `strings.Split`,
  `ctrl.SetControllerReference`) are embedded from their library sources.
* A Go panic is an explicit outcome (`GoResult.panic`).
-/

set_option linter.dupNamespace false

namespace Controller

/-! ## Data model -/

/-- Go `error` as the controller sees it: the API status reason and a message. -/
structure Error where
  reason : String
  message : String
  deriving DecidableEq, Repr

/-- Library `apierrors.IsNotFound`: the status reason is `NotFound`. (The
library also accepts an HTTP code 404 under a reason it does not know; errors
are told apart here by their reason alone.) -/
def IsNotFound (e : Error) : Bool :=
  e.reason == "NotFound"

/-- The timestamps of `metav1.Time`, as a number; `0` is the zero time. -/
abbrev Time := Nat

/-- Library `metav1.ConditionStatus`. -/
inductive ConditionStatus where
  | ConditionTrue
  | ConditionFalse
  | ConditionUnknown
  deriving DecidableEq, Repr

/-- Library `metav1.Condition`. -/
structure Condition where
  CondType : String
  Status : ConditionStatus
  ObservedGeneration : Int := 0
  LastTransitionTime : Time := 0
  Reason : String := ""
  Message : String := ""
  deriving DecidableEq, Repr

/-- The record `SwxfllSpec` (both fields are `int32`). -/
structure SwxfllSpec where
  Size : Int := 0
  ContainerPort : Int := 0
  deriving DecidableEq, Repr

/-- The record `SwxfllStatus`. -/
structure SwxfllStatus where
  Conditions : List Condition := []
  deriving DecidableEq, Repr

/-- The record `Swxfll`, with the `ObjectMeta` fields the controller uses. -/
structure Swxfll where
  Name : String := ""
  Namespace : String := ""
  UID : String := ""
  ResourceVersion : String := ""
  Finalizers : List String := []
  DeletionTimestamp : Option Time := none
  Spec : SwxfllSpec := {}
  Status : SwxfllStatus := {}
  deriving DecidableEq, Repr

/-- Library `types.NamespacedName`. -/
structure NamespacedName where
  Namespace : String := ""
  Name : String := ""
  deriving DecidableEq, Repr

/-- Library `ctrl.Request`. -/
structure Request where
  NamespacedName : NamespacedName
  deriving DecidableEq, Repr

/-- Library `ctrl.Result`. -/
structure Result where
  Requeue : Bool := false
  RequeueAfter : Nat := 0
  deriving DecidableEq, Repr

/-- Library `metav1.OwnerReference`. -/
structure OwnerReference where
  APIVersion : String
  Kind : String
  Name : String
  UID : String
  Controller : Bool
  BlockOwnerDeletion : Bool
  deriving DecidableEq, Repr

/-- Library `corev1.ContainerPort`. -/
structure ContainerPort where
  Name : String
  ContainerPort : Int
  deriving DecidableEq, Repr

/-- Library `corev1.SecurityContext`, the fields the synthesizer sets. -/
structure SecurityContext where
  RunAsUser : Int
  AllowPrivilegeEscalation : Bool
  CapabilitiesDrop : List String
  deriving DecidableEq, Repr

/-- Library `corev1.Container`, the fields the synthesizer sets. -/
structure Container where
  Image : String
  Name : String
  ImagePullPolicy : String
  SecurityContext : SecurityContext
  Ports : List ContainerPort
  Command : List String
  deriving DecidableEq, Repr

/-- Library `corev1.PodSecurityContext`, the fields the synthesizer sets. -/
structure PodSecurityContext where
  RunAsNonRoot : Bool
  SeccompProfileType : String
  deriving DecidableEq, Repr

/-- A Go `map[string]string` literal, as its key/value pairs in source order. -/
abbrev Labels := List (String × String)

/-- Library `appsv1.Deployment`, the fields the synthesizer sets. -/
structure Deployment where
  Name : String
  Namespace : String
  OwnerReferences : List OwnerReference
  Replicas : Int
  SelectorMatchLabels : Labels
  TemplateLabels : Labels
  PodSecurityContext : PodSecurityContext
  Containers : List Container
  deriving DecidableEq, Repr

/-- Outcome of a Go call that may panic. -/
inductive GoResult (α : Type) where
  | ret (a : α)
  | panic (msg : String)
  deriving DecidableEq, Repr

/-! ## Constants of the controller -/

def swxfllFinalizer : String := "cache.swxfll.com/finalizer"

def typeAvailableSwxfll : String := "Available"

def typeDegradedSwxfll : String := "Degraded"

/-! ## Library helpers -/

/-- Library `meta.FindStatusCondition` followed by the in-place edit of
`meta.SetStatusCondition` on the first entry of the given type. -/
def setExisting (newCondition : Condition) (now : Time) : List Condition → List Condition
  | [] => []
  | c :: cs =>
    if c.CondType = newCondition.CondType then
      let c1 : Condition :=
        if c.Status ≠ newCondition.Status then
          { c with
            Status := newCondition.Status
            LastTransitionTime :=
              if newCondition.LastTransitionTime ≠ 0 then newCondition.LastTransitionTime
              else now }
        else c
      { c1 with
        Reason := newCondition.Reason
        Message := newCondition.Message
        ObservedGeneration := newCondition.ObservedGeneration } :: cs
    else c :: setExisting newCondition now cs

/-- Library `meta.SetStatusCondition`; `now` is the reading of `time.Now()`. -/
def SetStatusCondition (conditions : List Condition) (newCondition : Condition)
    (now : Time) : List Condition :=
  if conditions.any (fun c => c.CondType == newCondition.CondType) then
    setExisting newCondition now conditions
  else
    conditions ++
      [ if newCondition.LastTransitionTime = 0 then
          { newCondition with LastTransitionTime := now }
        else newCondition ]

/-- Library `controllerutil.ContainsFinalizer`. -/
def ContainsFinalizer (o : Swxfll) (finalizer : String) : Bool :=
  o.Finalizers.any (fun e => e == finalizer)

/-- Library `controllerutil.AddFinalizer`: the object afterwards and whether
the finalizers were updated. -/
def AddFinalizer (o : Swxfll) (finalizer : String) : Swxfll × Bool :=
  if o.Finalizers.any (fun e => e == finalizer) then (o, false)
  else ({ o with Finalizers := o.Finalizers ++ [finalizer] }, true)

/-- Library `controllerutil.RemoveFinalizer`: the object afterwards and whether
the finalizers were updated. -/
def RemoveFinalizer (o : Swxfll) (finalizer : String) : Swxfll × Bool :=
  let f := o.Finalizers.filter (fun e => !(e == finalizer))
  ({ o with Finalizers := f }, o.Finalizers.length != f.length)

/-- Library `strings.Split` for a one-character separator, on the characters
left to read, with the piece being read held reversed in `cur`. -/
def splitAux (sep : Char) : List Char → List Char → List String
  | [], cur => [String.mk cur.reverse]
  | c :: cs, cur =>
    if c = sep then String.mk cur.reverse :: splitAux sep cs []
    else splitAux sep cs (c :: cur)

/-- Library `strings.Split(s, sep)` for a one-character separator. -/
def stringsSplit (s : String) (sep : Char) : List String :=
  splitAux sep s.data []

/-- Library `schema.GroupVersionKind`. -/
structure GroupVersionKind where
  Group : String
  Version : String
  Kind : String
  deriving DecidableEq, Repr

/-- Library `runtime.Scheme`, as far as the controller uses it: the kind under
which the Go type `Swxfll` is registered, if it is. -/
structure Scheme where
  SwxfllKind : Option GroupVersionKind
  deriving DecidableEq, Repr

/-- Library `schema.GroupVersion.String`. -/
def groupVersionString (gvk : GroupVersionKind) : String :=
  if gvk.Group = "" then gvk.Version else gvk.Group ++ "/" ++ gvk.Version

/-- Library `schema.ParseGroupVersion`, the group of an `apiVersion`. -/
def parseGroup (apiVersion : String) : Option String :=
  match stringsSplit apiVersion '/' with
  | [_] => some ""
  | [g, _] => some g
  | _ => none

/-- Library `referSameObject` of `controllerutil`. -/
def referSameObject (a b : OwnerReference) : Bool :=
  match parseGroup a.APIVersion, parseGroup b.APIVersion with
  | some ga, some gb => ga == gb && a.Kind == b.Kind && a.Name == b.Name
  | _, _ => false

/-- Library `upsertOwnerRef` of `controllerutil`. -/
def upsertOwnerRef (ref : OwnerReference) : List OwnerReference → List OwnerReference
  | [] => [ref]
  | r :: rs => if referSameObject r ref then ref :: rs else r :: upsertOwnerRef ref rs

/-- Library `controllerutil.SetControllerReference` with a `Swxfll` owner and a
`Deployment` controlled object: the error returned, or the controlled object
with its owner references updated. -/
def SetControllerReference (owner : Swxfll) (controlled : Deployment) (scheme : Scheme) :
    Except Error Deployment :=
  if owner.Namespace ≠ "" ∧ controlled.Namespace = "" then
    .error ⟨"", "cluster-scoped resource must not have a namespace-scoped owner"⟩
  else if owner.Namespace ≠ "" ∧ owner.Namespace ≠ controlled.Namespace then
    .error ⟨"", "cross-namespace owner references are disallowed"⟩
  else
    match scheme.SwxfllKind with
    | none => .error ⟨"", "no kind is registered for the type v1alpha1.Swxfll"⟩
    | some gvk =>
      let ref : OwnerReference :=
        { APIVersion := groupVersionString gvk
          Kind := gvk.Kind
          Name := owner.Name
          UID := owner.UID
          BlockOwnerDeletion := true
          Controller := true }
      match controlled.OwnerReferences.find? (fun r => r.Controller) with
      | some existing =>
        if referSameObject existing ref then
          .ok { controlled with OwnerReferences := upsertOwnerRef ref controlled.OwnerReferences }
        else .error ⟨"", "Object is already owned by another controller"⟩
      | none =>
        .ok { controlled with OwnerReferences := upsertOwnerRef ref controlled.OwnerReferences }

/-! ## The Deployment synthesizer (lines 225–352) -/

/-- The process environment behind `os.LookupEnv`. -/
abbrev Environ := String → Option String

/-- Source `imageForSwxfll` (lines 345–352). -/
def imageForSwxfll (env : Environ) : String × Option Error :=
  let imageEnvVar := "SWXFLL_IMAGE"
  match env imageEnvVar with
  | none => ("", some ⟨"", "无法找到 " ++ imageEnvVar ++ " 环境变量与镜像"⟩)
  | some image => (image, none)

/-- Source `labelsForSwxfll` (lines 328–341). The index expression
`strings.Split(image, ":")[1]` panics when the split has fewer than two
pieces. -/
def labelsForSwxfll (env : Environ) (name : String) : GoResult Labels :=
  let mk (imageTag : String) : Labels :=
    [ ("app.kubernetes.io/name", "Swxfll"),
      ("app.kubernetes.io/instance", name),
      ("app.kubernetes.io/version", imageTag),
      ("app.kubernetes.io/part-of", "swxfll-operator"),
      ("app.kubernetes.io/created-by", "controller-manager") ]
  match imageForSwxfll env with
  | (image, none) =>
    match stringsSplit image ':' with
    | _ :: imageTag :: _ => .ret (mk imageTag)
    | _ => .panic "runtime error: index out of range [1]"
  | (_, some _) => .ret (mk "")

/-- Source `deploymentForSwxfll` (lines 226–324): the pair returned
(`nil` pointers as `none`), or a panic. -/
def deploymentForSwxfll (env : Environ) (scheme : Scheme) (swxfll : Swxfll) :
    GoResult (Option Deployment × Option Error) :=
  match labelsForSwxfll env swxfll.Name with
  | .panic msg => .panic msg
  | .ret ls =>
    let replicas := swxfll.Spec.Size
    match imageForSwxfll env with
    | (_, some err) => .ret (none, some err)
    | (image, none) =>
      let dep : Deployment :=
        { Name := swxfll.Name
          Namespace := swxfll.Namespace
          OwnerReferences := []
          Replicas := replicas
          SelectorMatchLabels := ls
          TemplateLabels := ls
          PodSecurityContext :=
            { RunAsNonRoot := true
              SeccompProfileType := "RuntimeDefault" }
          Containers :=
            [ { Image := image
                Name := "swxfll"
                ImagePullPolicy := "IfNotPresent"
                SecurityContext :=
                  { RunAsUser := 1001
                    AllowPrivilegeEscalation := false
                    CapabilitiesDrop := ["ALL"] }
                Ports := [ { ContainerPort := swxfll.Spec.ContainerPort, Name := "swxfll" } ]
                Command := ["swxfll", "-m=64", "-o", "modern", "-v"] } ] }
      match SetControllerReference swxfll dep scheme with
      | .error err => .ret (none, some err)
      | .ok dep => .ret (some dep, none)

/-! ## The API store, the event sink and the call log -/

/-- A call on the API store through `client.Client`. `Create` and
`UpdateDeployment` are the calls on the child that the interface offers. -/
inductive Call where
  | Get (key : NamespacedName)
  | GetDeployment (key : NamespacedName)
  | Update (obj : Swxfll)
  | StatusUpdate (obj : Swxfll)
  | Create (obj : Deployment)
  | UpdateDeployment (obj : Deployment)
  deriving DecidableEq, Repr

/-- One entry of the call log: the source line of the call, the call, and the
error it returned (`none` for `nil`). -/
structure Entry where
  line : Nat
  call : Call
  err : Option Error
  deriving DecidableEq, Repr

/-- Library `client.Client` as `Reconcile` uses it, over a store state `ω`.
Reads do not change the store; a write returns the error or the object as
the store answers it (which the Go call decodes into the caller's object),
and the store afterwards. -/
structure Client (ω : Type) where
  Get : ω → NamespacedName → Except Error Swxfll
  GetDeployment : ω → NamespacedName → Except Error Deployment
  Update : ω → Swxfll → Except Error Swxfll × ω
  StatusUpdate : ω → Swxfll → Except Error Swxfll × ω

/-- Library `record.EventRecorder` over a sink state `ρ`: `Event` returns
nothing to its caller. -/
structure EventRecorder (ρ : Type) where
  Event : ρ → Swxfll → String → String → String → ρ

/-- The record `SwxfllReconciler` (lines 52–57). `Recorder` is an interface
value: `none` is the nil interface, which is what `cmd/main.go` (lines
160–163) leaves there, setting `Client` and `Scheme` only. -/
structure SwxfllReconciler (ω ρ : Type) where
  Client : Client ω
  Scheme : Scheme
  Recorder : Option (EventRecorder ρ)

/-- What a reconcile acts on: the store, the event sink, and the log of the
store calls made so far. -/
structure World (ω ρ : Type) where
  store : ω
  sink : ρ
  log : List Entry

/-- The pair `(ctrl.Result, error)` returned by `Reconcile`, or the panic that
ended it, and the world afterwards. -/
abbrev Outcome (ω ρ : Type) := GoResult (Result × Option Error) × World ω ρ

/-- The error of a call's answer (`none` for `nil`). -/
def errOf {α : Type} : Except Error α → Option Error
  | .ok _ => none
  | .error e => some e

/-- Appends a call to the log. -/
def World.record {ω ρ : Type} (w : World ω ρ) (line : Nat) (call : Call)
    (err : Option Error) : World ω ρ :=
  { w with log := w.log ++ [⟨line, call, err⟩] }

/-- Appends a write call to the log and installs the store it left. -/
def World.wrote {ω ρ : Type} (w : World ω ρ) (line : Nat) (call : Call)
    (ans : Except Error Swxfll × ω) : World ω ρ :=
  { w with store := ans.2, log := w.log ++ [⟨line, call, errOf ans.1⟩] }

/-! ## The reconcile loop (lines 75–223) -/

/-- Source `doFinalizerOperationsForSwxfll` (lines 209–223): emits one event
and returns nothing. The method call `r.Recorder.Event` of line 220 panics
on a nil `Recorder`. -/
def doFinalizerOperationsForSwxfll {ω ρ : Type} (r : SwxfllReconciler ω ρ) (cr : Swxfll)
    (sink : ρ) : GoResult ρ :=
  match r.Recorder with
  | none => .panic "runtime error: invalid memory address or nil pointer dereference"
  | some recorder =>
    .ret (recorder.Event sink cr "Warning" "Deleting"
      ("自定义资源 " ++ cr.Name ++ " 正在从命名空间 " ++ cr.Namespace ++ " 中删除"))

/-- Source `Reconcile`, lines 194–205: the steady-state branch. The body of
the `if` at line 200 is the unfinished selector `r.d` (line 202), which makes
no call. -/
def steadyState {ω ρ : Type} (r : SwxfllReconciler ω ρ) (swxfll : Swxfll)
    (w : World ω ρ) : Outcome ω ρ :=
  let key : NamespacedName := { Name := swxfll.Name, Namespace := swxfll.Namespace }
  let found := r.Client.GetDeployment w.store key
  let w := w.record 196 (.GetDeployment key) (errOf found)
  match found with
  | .error err => if IsNotFound err then (.ret ({}, none), w) else (.ret ({}, none), w)
  | .ok _ => (.ret ({}, none), w)

/-- Source `Reconcile`, lines 135–191: the deletion branch. `now l` is the
reading of `time.Now()` inside the `SetStatusCondition` call of line `l`. A
panic of the cleanup step (line 153) ends the reconcile there. -/
def deletionBranch {ω ρ : Type} (r : SwxfllReconciler ω ρ) (now : Nat → Time)
    (req : Request) (swxfll : Swxfll) (w : World ω ρ) : Outcome ω ρ :=
  if ContainsFinalizer swxfll swxfllFinalizer then
    let swxfll : Swxfll :=
      { swxfll with
        Status.Conditions :=
          SetStatusCondition swxfll.Status.Conditions
            { CondType := typeAvailableSwxfll
              Status := .ConditionUnknown
              Reason := "Finalizing"
              Message := "执行自定义资源的 finalizer 操作: " ++ swxfll.Name } (now 139) }
    let ans := r.Client.StatusUpdate w.store swxfll
    let w := w.wrote 147 (.StatusUpdate swxfll) ans
    match ans.1 with
    | .error err => (.ret ({}, some err), w)
    | .ok swxfll =>
      match doFinalizerOperationsForSwxfll r swxfll w.sink with
      | .panic msg => (.panic msg, w)
      | .ret sink =>
        let w := { w with sink := sink }
        let got := r.Client.Get w.store req.NamespacedName
        let w := w.record 162 (.Get req.NamespacedName) (errOf got)
        match got with
        | .error err => (.ret ({}, some err), w)
        | .ok swxfll =>
          let swxfll : Swxfll :=
            { swxfll with
              Status.Conditions :=
                SetStatusCondition swxfll.Status.Conditions
                  { CondType := typeDegradedSwxfll
                    Status := .ConditionTrue
                    Reason := "Finalizing"
                    Message := "自定义资源 " ++ swxfll.Name ++ " 的 finalizer 操作已成功完成" }
                  (now 167) }
          let ans := r.Client.StatusUpdate w.store swxfll
          let w := w.wrote 174 (.StatusUpdate swxfll) ans
          match ans.1 with
          | .error err => (.ret ({}, some err), w)
          | .ok swxfll =>
            match RemoveFinalizer swxfll swxfllFinalizer with
            | (_, false) => (.ret ({ Requeue := true }, none), w)
            | (swxfll, true) =>
              let ans := r.Client.Update w.store swxfll
              let w := w.wrote 185 (.Update swxfll) ans
              match ans.1 with
              | .error err => (.ret ({}, some err), w)
              | .ok _ => (.ret ({}, none), w)
  else (.ret ({}, none), w)

/-- Source `Reconcile`, lines 119–206: the finalizer is ensured, then the
deletion branch or the steady-state branch runs. -/
def ensureFinalizer {ω ρ : Type} (r : SwxfllReconciler ω ρ) (now : Nat → Time)
    (req : Request) (swxfll : Swxfll) (w : World ω ρ) : Outcome ω ρ :=
  let rest (swxfll : Swxfll) (w : World ω ρ) : Outcome ω ρ :=
    let isSwxfllMarkedToBeDeleted := swxfll.DeletionTimestamp.isSome
    if isSwxfllMarkedToBeDeleted then deletionBranch r now req swxfll w
    else steadyState r swxfll w
  if !ContainsFinalizer swxfll swxfllFinalizer then
    match AddFinalizer swxfll swxfllFinalizer with
    | (_, false) => (.ret ({ Requeue := true }, none), w)
    | (swxfll, true) =>
      let ans := r.Client.Update w.store swxfll
      let w := w.wrote 126 (.Update swxfll) ans
      match ans.1 with
      | .error err => (.ret ({}, some err), w)
      | .ok swxfll => rest swxfll w
  else rest swxfll w

/-- Source `Reconcile`, lines 93–206: the status is initialised when the
object has no condition, then the rest runs. -/
def ensureStatus {ω ρ : Type} (r : SwxfllReconciler ω ρ) (now : Nat → Time)
    (req : Request) (swxfll : Swxfll) (w : World ω ρ) : Outcome ω ρ :=
  if swxfll.Status.Conditions.length = 0 then
    let swxfll : Swxfll :=
      { swxfll with
        Status.Conditions :=
          SetStatusCondition swxfll.Status.Conditions
            { CondType := typeAvailableSwxfll
              Status := .ConditionUnknown
              Reason := "调和中"
              Message := "开始调和" } (now 94) }
    let ans := r.Client.StatusUpdate w.store swxfll
    let w := w.wrote 100 (.StatusUpdate swxfll) ans
    match ans.1 with
    | .error err => (.ret ({}, some err), w)
    | .ok _ =>
      let got := r.Client.Get w.store req.NamespacedName
      let w := w.record 108 (.Get req.NamespacedName) (errOf got)
      match got with
      | .error err => (.ret ({}, some err), w)
      | .ok swxfll => ensureFinalizer r now req swxfll w
  else ensureFinalizer r now req swxfll w

/-- Source `Reconcile` (lines 75–206). A failed `Get` leaves the zero-valued
object of line 81 in `swxfll`; the `if` of lines 83–90 returns only for
NotFound, so any other error falls through to line 93. -/
def Reconcile {ω ρ : Type} (r : SwxfllReconciler ω ρ) (now : Nat → Time)
    (req : Request) (w : World ω ρ) : Outcome ω ρ :=
  let swxfll : Swxfll := {}
  let got := r.Client.Get w.store req.NamespacedName
  let w := w.record 82 (.Get req.NamespacedName) (errOf got)
  match got with
  | .error err =>
    if IsNotFound err then (.ret ({}, none), w)
    else ensureStatus r now req swxfll w
  | .ok swxfll => ensureStatus r now req swxfll w

/-! ## Properties of the call log -/

/-- The call is a write on the store. -/
def Call.isWrite : Call → Bool
  | .Get _ => false
  | .GetDeployment _ => false
  | .Update _ => true
  | .StatusUpdate _ => true
  | .Create _ => true
  | .UpdateDeployment _ => true

/-- The write calls of a log, in order. -/
def writesOf (log : List Entry) : List Entry :=
  log.filter (fun e => e.call.isWrite)

/-- The entry is an `Update` of a parent that does not carry the finalizer. -/
def removesFinalizer (e : Entry) : Bool :=
  match e.call with
  | .Update o => !ContainsFinalizer o swxfllFinalizer
  | _ => false

/-- The condition is the terminal one: Degraded, True, reason `Finalizing`. -/
def isTerminalDegraded (c : Condition) : Bool :=
  c.CondType == typeDegradedSwxfll && c.Status == .ConditionTrue && c.Reason == "Finalizing"

/-- The entry is a `Status().Update` that succeeded and whose object carries
the terminal Degraded condition. -/
def persistsDegraded (e : Entry) : Bool :=
  match e.call with
  | .StatusUpdate o => e.err.isNone && o.Status.Conditions.any isTerminalDegraded
  | _ => false

/-- Every finalizer-removing update of the log has a persisted terminal
Degraded condition before it (`seen`: one was met before this log). -/
def orderedFrom (seen : Bool) : List Entry → Bool
  | [] => true
  | e :: es => (!removesFinalizer e || seen) && orderedFrom (seen || persistsDegraded e) es

/-- The entry is one of the deletion-branch steps that precede the removal of
the finalizer: the status update of line 147, the re-fetch of line 162, the
status update of line 174. -/
def isDeletionStep (e : Entry) : Bool :=
  e.line == 147 || e.line == 162 || e.line == 174

/-- The errors returned by the deletion-branch steps of a log. -/
def stepErrors (log : List Entry) : List Error :=
  log.filterMap (fun e => if isDeletionStep e then e.err else none)

/-- The entry is the status update of line 174, answered without error. -/
def degradedSucceeded (e : Entry) : Bool :=
  e.line == 174 && e.err.isNone && persistsDegraded e

/-- Every failed deletion-branch step is what the reconcile returned, and with
one failed no update of the log removes the finalizer; and with an update
removing the finalizer in the log, the status update of line 174 succeeded. -/
def failStop (res : GoResult (Result × Option Error)) (log : List Entry) : Bool :=
  (stepErrors log).all (fun err => res == .ret ({}, some err)) &&
  ((stepErrors log).isEmpty || log.all (fun u => !removesFinalizer u)) &&
  (log.all (fun u => !removesFinalizer u) || log.any degradedSucceeded)

/-- The objects of the `UpdateDeployment` calls of a log, in order. -/
def childUpdates (log : List Entry) : List Deployment :=
  log.filterMap (fun e => match e.call with
    | .UpdateDeployment d => some d
    | _ => none)

/-- The objects of the `Create` calls of a log, in order. -/
def creates (log : List Entry) : List Deployment :=
  log.filterMap (fun e => match e.call with
    | .Create d => some d
    | _ => none)

/-- The status-model invariant: at most one condition per type. -/
def uniqueTypes (conditions : List Condition) : Prop :=
  (conditions.map (fun c => c.CondType)).Nodup

instance uniqueTypesDecidable (conditions : List Condition) :
    Decidable (uniqueTypes conditions) :=
  inferInstanceAs (Decidable ((conditions.map (fun c : Condition => c.CondType)).Nodup))

/-- The condition is the one `Reconcile` upserts at the given line: the
Available / Unknown upsert before the status update of line 100, the
Available / Unknown `Finalizing` upsert before that of line 147, the
Degraded / True `Finalizing` upsert before that of line 174; none of them
sets a transition time. -/
def upsertAt (line : Nat) (nc : Condition) : Bool :=
  nc.LastTransitionTime == 0 &&
  ((line == 100 && nc.CondType == typeAvailableSwxfll && nc.Status == .ConditionUnknown &&
      nc.Reason == "调和中") ||
   (line == 147 && nc.CondType == typeAvailableSwxfll && nc.Status == .ConditionUnknown &&
      nc.Reason == "Finalizing") ||
   (line == 174 && nc.CondType == typeDegradedSwxfll && nc.Status == .ConditionTrue &&
      nc.Reason == "Finalizing"))

/-- The entry, when it is a `Status().Update`, passes the upsert of its line
into a condition list `held` that keeps the invariant: the list passed keeps
the invariant, and an entry of `held` of the upserted type whose status is
the upserted one is found again with its transition time. -/
def upsertEntry (e : Entry) : Prop :=
  ∀ o : Swxfll, e.call = .StatusUpdate o →
    ∃ (held : List Condition) (nc : Condition) (t : Time),
      uniqueTypes held ∧ upsertAt e.line nc = true ∧
      o.Status.Conditions = SetStatusCondition held nc t ∧
      uniqueTypes o.Status.Conditions ∧
      ∀ c ∈ held, c.CondType = nc.CondType → c.Status = nc.Status →
        ∃ c2 ∈ o.Status.Conditions,
          c2.CondType = nc.CondType ∧ c2.LastTransitionTime = c.LastTransitionTime

/-- The pair returned asks the scheduler for a re-invocation: a non-nil error
or `Requeue`. -/
def requestsReinvocation : GoResult (Result × Option Error) → Bool
  | .ret (res, err) => err.isSome || res.Requeue
  | .panic _ => false

/-- What of an outcome the store and the caller can see: the pair returned,
the store afterwards and the call log. The event sink is left out. -/
def Outcome.visible {ω ρ : Type} (o : Outcome ω ρ) :
    GoResult (Result × Option Error) × ω × List Entry :=
  (o.1, o.2.store, o.2.log)

/-! ## A one-object store and two event sinks, for worked runs -/

/-- A store holding at most one parent and one child, with switches that make
its calls fail. -/
structure Mem where
  parent : Option Swxfll := none
  child : Option Deployment := none
  getError : Option Error := none
  childError : Option Error := none
  writeError : Option Error := none
  deriving DecidableEq, Repr

def notFoundError : Error := ⟨"NotFound", "not found"⟩

def unavailableError : Error := ⟨"ServiceUnavailable", "the server is currently unable to handle the request"⟩

/-- The stored parent under the key, if any. -/
def Mem.lookup (s : Mem) (ns name : String) : Option Swxfll :=
  match s.parent with
  | some p => if p.Name = name ∧ p.Namespace = ns then some p else none
  | none => none

/-- A client over `Mem`: `Update` keeps the stored status, `Status().Update`
changes only the status, and an object marked for deletion is removed once
its finalizer list is empty. -/
def memClient : Client Mem where
  Get s key :=
    match s.getError with
    | some e => .error e
    | none =>
      match s.lookup key.Namespace key.Name with
      | some p => .ok p
      | none => .error notFoundError
  GetDeployment s key :=
    match s.childError with
    | some e => .error e
    | none =>
      match s.child with
      | some d => if d.Name = key.Name ∧ d.Namespace = key.Namespace then .ok d
                  else .error notFoundError
      | none => .error notFoundError
  Update s o :=
    match s.writeError with
    | some e => (.error e, s)
    | none =>
      match s.lookup o.Namespace o.Name with
      | some p =>
        let q : Swxfll := { o with Status := p.Status }
        if q.DeletionTimestamp.isSome ∧ q.Finalizers = [] then (.ok q, { s with parent := none })
        else (.ok q, { s with parent := some q })
      | none => (.error notFoundError, s)
  StatusUpdate s o :=
    match s.writeError with
    | some e => (.error e, s)
    | none =>
      match s.lookup o.Namespace o.Name with
      | some p =>
        let q : Swxfll := { p with Status := o.Status }
        (.ok q, { s with parent := some q })
      | none => (.error notFoundError, s)

/-- An event sink: the messages recorded, and whether an emission failed. -/
structure Sink where
  events : List String := []
  failed : Bool := false
  deriving DecidableEq, Repr

/-- A recorder that records every event. -/
def okRecorder : EventRecorder Sink where
  Event s _ _ _ msg := { s with events := s.events ++ [msg] }

/-- A recorder whose emission fails: the event is lost. -/
def brokenRecorder : EventRecorder Sink where
  Event s _ _ _ _ := { s with failed := true }

def demoScheme : Scheme := ⟨some ⟨"cache.swxfll.com", "v1alpha1", "Swxfll"⟩⟩

def demoReconciler : SwxfllReconciler Mem Sink := ⟨memClient, demoScheme, some okRecorder⟩

def brokenReconciler : SwxfllReconciler Mem Sink := ⟨memClient, demoScheme, some brokenRecorder⟩

/-- The reconciler as `cmd/main.go` builds it: no recorder. -/
def wiredReconciler : SwxfllReconciler Mem Sink := ⟨memClient, demoScheme, none⟩

def demoRequest : Request := ⟨⟨"default", "demo"⟩⟩

def demoCondition : Condition :=
  { CondType := typeAvailableSwxfll, Status := .ConditionUnknown, LastTransitionTime := 7,
    Reason := "调和中", Message := "开始调和" }

/-- A settled parent: one condition, the finalizer, not being deleted. -/
def demoParent : Swxfll :=
  { Name := "demo", Namespace := "default", UID := "u1", Finalizers := [swxfllFinalizer],
    Spec := { Size := 4, ContainerPort := 11211 }, Status := { Conditions := [demoCondition] } }

/-- The same parent, marked for deletion. -/
def deletingParent : Swxfll := { demoParent with DeletionTimestamp := some 9 }

def demoEnviron : Environ := fun k => if k = "SWXFLL_IMAGE" then some "memcached:1.4.36-alpine" else none

def emptyEnviron : Environ := fun _ => none

/-- The child the synthesizer would build for `demoParent`, with two replicas
where the parent asks for four. -/
def driftedChild : Deployment :=
  { Name := "demo", Namespace := "default",
    OwnerReferences :=
      [ { APIVersion := "cache.swxfll.com/v1alpha1", Kind := "Swxfll", Name := "demo",
          UID := "u1", Controller := true, BlockOwnerDeletion := true } ]
    Replicas := 2
    SelectorMatchLabels :=
      [ ("app.kubernetes.io/name", "Swxfll"), ("app.kubernetes.io/instance", "demo"),
        ("app.kubernetes.io/version", "1.4.36-alpine"),
        ("app.kubernetes.io/part-of", "swxfll-operator"),
        ("app.kubernetes.io/created-by", "controller-manager") ]
    TemplateLabels :=
      [ ("app.kubernetes.io/name", "Swxfll"), ("app.kubernetes.io/instance", "demo"),
        ("app.kubernetes.io/version", "1.4.36-alpine"),
        ("app.kubernetes.io/part-of", "swxfll-operator"),
        ("app.kubernetes.io/created-by", "controller-manager") ]
    PodSecurityContext := { RunAsNonRoot := true, SeccompProfileType := "RuntimeDefault" }
    Containers :=
      [ { Image := "memcached:1.4.36-alpine", Name := "swxfll", ImagePullPolicy := "IfNotPresent",
          SecurityContext :=
            { RunAsUser := 1001, AllowPrivilegeEscalation := false, CapabilitiesDrop := ["ALL"] }
          Ports := [ { ContainerPort := 11211, Name := "swxfll" } ]
          Command := ["swxfll", "-m=64", "-o", "modern", "-v"] } ] }

/-- The child exactly as the synthesizer builds it for `demoParent`. -/
def matchingChild : Deployment := { driftedChild with Replicas := 4 }

/-- A client over `Mem` that hands out a parent only when its condition list
keeps the invariant, as a store validating the list as a map keyed by type
does. -/
def strictClient : Client Mem where
  Get s key :=
    match memClient.Get s key with
    | .ok p => if uniqueTypes p.Status.Conditions then .ok p
               else .error ⟨"Invalid", "duplicate condition type"⟩
    | .error e => .error e
  GetDeployment := memClient.GetDeployment
  Update s o :=
    match memClient.Update s o with
    | (.ok p, s2) => if uniqueTypes p.Status.Conditions then (.ok p, s2)
                     else (.error ⟨"Invalid", "duplicate condition type"⟩, s)
    | (.error e, s2) => (.error e, s2)
  StatusUpdate := memClient.StatusUpdate

def strictReconciler : SwxfllReconciler Mem Sink := ⟨strictClient, demoScheme, some okRecorder⟩

/-- The object of the status update of line 147 in the run on
`deletingParent` with every clock reading at 50. -/
def finalizingUpdate : Swxfll :=
  { deletingParent with
    Status.Conditions :=
      SetStatusCondition deletingParent.Status.Conditions
        { CondType := typeAvailableSwxfll
          Status := .ConditionUnknown
          Reason := "Finalizing"
          Message := "执行自定义资源的 finalizer 操作: demo" } 50 }

/-! ## Lemmas -/

theorem addFinalizer_contains (o o1 : Swxfll) (f : String)
    (h : AddFinalizer o f = (o1, true)) : ContainsFinalizer o1 f = true := by
  unfold AddFinalizer at h
  split at h
  · simp at h
  · simp at h
    subst h
    simp [ContainsFinalizer]

theorem setExisting_any (nc : Condition) (now : Time) (p : Condition → Bool)
    (hp : ∀ c : Condition, c.CondType = nc.CondType → c.Status = nc.Status →
      c.Reason = nc.Reason → p c = true) :
    ∀ cs : List Condition, cs.any (fun c => c.CondType == nc.CondType) = true →
      (setExisting nc now cs).any p = true := by
  intro cs
  induction cs with
  | nil => simp
  | cons c cs ih =>
    intro h
    unfold setExisting
    by_cases hc : c.CondType = nc.CondType
    · simp only [hc, if_true, List.any_cons]
      rw [hp]
      · simp
      · by_cases hs : c.Status = nc.Status <;> simp [hs, hc]
      · by_cases hs : c.Status = nc.Status <;> simp [hs]
      · simp
    · simp only [hc, if_false, List.any_cons]
      simp [hc] at h
      obtain ⟨x, hx, hxe⟩ := h
      have := ih (by simp; exact ⟨x, hx, hxe⟩)
      simp [this]

theorem setStatusCondition_any (cs : List Condition) (nc : Condition) (now : Time)
    (p : Condition → Bool)
    (hp : ∀ c : Condition, c.CondType = nc.CondType → c.Status = nc.Status →
      c.Reason = nc.Reason → p c = true) :
    (SetStatusCondition cs nc now).any p = true := by
  unfold SetStatusCondition
  split
  · next h => exact setExisting_any nc now p hp cs h
  · simp only [List.any_append, List.any_cons, List.any_nil, Bool.or_false]
    rw [hp _ (by split <;> rfl) (by split <;> rfl) (by split <;> rfl)]
    simp

theorem terminalDegraded_set (cs : List Condition) (m : String) (t : Time) :
    (SetStatusCondition cs
      { CondType := typeDegradedSwxfll, Status := .ConditionTrue, Reason := "Finalizing",
        Message := m } t).any isTerminalDegraded = true := by
  apply setStatusCondition_any
  intro c h1 h2 h3
  simp only [isTerminalDegraded, h1, h2, h3, beq_self_eq_true, Bool.and_self]

theorem orderedFrom_append (s : Bool) (a b : List Entry) :
    orderedFrom s (a ++ b) =
      (orderedFrom s a && orderedFrom (s || a.any persistsDegraded) b) := by
  induction a generalizing s with
  | nil => simp [orderedFrom]
  | cons e a ih => simp [orderedFrom, ih, Bool.and_assoc, Bool.or_assoc]

theorem deletionBranch_ordered {ω ρ : Type} (r : SwxfllReconciler ω ρ) (now : Nat → Time)
    (req : Request) (p : Swxfll) (w : World ω ρ) (s : Bool)
    (h : orderedFrom s w.log = true) :
    orderedFrom s (deletionBranch r now req p w).2.log = true := by
  unfold deletionBranch
  simp only [World.record, World.wrote]
  repeat' split
  all_goals
    simp [orderedFrom_append, orderedFrom, h, removesFinalizer, persistsDegraded,
      terminalDegraded_set, errOf, *]

theorem steadyState_eq {ω ρ : Type} (r : SwxfllReconciler ω ρ) (p : Swxfll) (w : World ω ρ) :
    steadyState r p w =
      (.ret ({}, none),
        w.record 196 (.GetDeployment { Name := p.Name, Namespace := p.Namespace })
          (errOf (r.Client.GetDeployment w.store { Name := p.Name, Namespace := p.Namespace }))) := by
  unfold steadyState
  simp only
  split
  · split <;> rfl
  · rfl

theorem ensureFinalizer_ordered {ω ρ : Type} (r : SwxfllReconciler ω ρ) (now : Nat → Time)
    (req : Request) (p : Swxfll) (w : World ω ρ) (s : Bool)
    (h : orderedFrom s w.log = true) :
    orderedFrom s (ensureFinalizer r now req p w).2.log = true := by
  have hrest : ∀ (q : Swxfll) (v : World ω ρ), orderedFrom s v.log = true →
      orderedFrom s (if q.DeletionTimestamp.isSome = true then deletionBranch r now req q v
        else steadyState r q v).2.log = true := by
    intro q v hv
    split
    · exact deletionBranch_ordered r now req q v s hv
    · simp [steadyState_eq, World.record, orderedFrom_append, orderedFrom, removesFinalizer, hv]
  unfold ensureFinalizer
  simp only
  split
  · split
    · exact h
    · next q hq =>
      have hc := addFinalizer_contains _ _ _ hq
      split
      · simp [World.wrote, orderedFrom_append, orderedFrom, removesFinalizer, h, hc]
      · apply hrest
        simp [World.wrote, orderedFrom_append, orderedFrom, removesFinalizer, h, hc]
  · exact hrest _ _ h

theorem ensureStatus_ordered {ω ρ : Type} (r : SwxfllReconciler ω ρ) (now : Nat → Time)
    (req : Request) (p : Swxfll) (w : World ω ρ) (s : Bool)
    (h : orderedFrom s w.log = true) :
    orderedFrom s (ensureStatus r now req p w).2.log = true := by
  unfold ensureStatus
  simp only
  split
  · split
    · simp [World.wrote, orderedFrom_append, orderedFrom, removesFinalizer, h]
    · split
      · simp [World.wrote, World.record, orderedFrom_append, orderedFrom, removesFinalizer, h]
      · apply ensureFinalizer_ordered
        simp [World.wrote, World.record, orderedFrom_append, orderedFrom, removesFinalizer, h]
  · exact ensureFinalizer_ordered r now req p w s h

theorem Reconcile_ordered {ω ρ : Type} (r : SwxfllReconciler ω ρ) (now : Nat → Time)
    (req : Request) (w : World ω ρ) (s : Bool) (h : orderedFrom s w.log = true) :
    orderedFrom s (Reconcile r now req w).2.log = true := by
  unfold Reconcile
  simp only
  split
  · split
    · simp [World.record, orderedFrom_append, orderedFrom, removesFinalizer, h]
    · apply ensureStatus_ordered
      simp [World.record, orderedFrom_append, orderedFrom, removesFinalizer, h]
  · apply ensureStatus_ordered
    simp [World.record, orderedFrom_append, orderedFrom, removesFinalizer, h]

theorem orderedFrom_spec (l : List Entry) :
    ∀ (s : Bool), orderedFrom s l = true → ∀ (l1 l2 : List Entry) (u : Entry),
      l = l1 ++ u :: l2 → removesFinalizer u = true →
        s = true ∨ ∃ d ∈ l1, persistsDegraded d = true := by
  induction l with
  | nil => intro s _ l1 l2 u h; simp at h
  | cons e l ih =>
    intro s hs l1 l2 u h hu
    simp only [orderedFrom, Bool.and_eq_true, Bool.or_eq_true, Bool.not_eq_true'] at hs
    cases l1 with
    | nil =>
      simp only [List.nil_append, List.cons.injEq] at h
      obtain ⟨rfl, -⟩ := h
      rcases hs.1 with h1 | h1
      · rw [hu] at h1; cases h1
      · exact Or.inl h1
    | cons a l1 =>
      simp only [List.cons_append, List.cons.injEq] at h
      obtain ⟨rfl, rfl⟩ := h
      have := ih (s || persistsDegraded e) (by simpa using hs.2) l1 l2 u rfl hu
      rcases this with h1 | ⟨d, hd, hpd⟩
      · simp only [Bool.or_eq_true] at h1
        rcases h1 with h1 | h1
        · exact Or.inl h1
        · exact Or.inr ⟨e, by simp, h1⟩
      · exact Or.inr ⟨d, by simp [hd], hpd⟩

theorem failStop_extend (res : GoResult (Result × Option Error)) (a b : List Entry)
    (h1 : stepErrors a = []) (h2 : a.all (fun u => !removesFinalizer u) = true)
    (hb : failStop res b = true) : failStop res (a ++ b) = true := by
  have hs : stepErrors (a ++ b) = stepErrors b := by
    unfold stepErrors at h1 ⊢
    rw [List.filterMap_append, h1, List.nil_append]
  unfold failStop at hb ⊢
  rw [hs, List.all_append, h2, List.any_append]
  simp only [Bool.true_and, Bool.and_eq_true, Bool.or_eq_true] at hb ⊢
  refine ⟨hb.1, ?_⟩
  rcases hb.2 with h | h
  · exact Or.inl h
  · exact Or.inr (Or.inr h)

theorem failStop_clean (res : GoResult (Result × Option Error)) (a : List Entry)
    (h1 : stepErrors a = []) (h2 : a.all (fun u => !removesFinalizer u) = true) :
    failStop res a = true := by
  have := failStop_extend res a [] h1 h2 (by simp [failStop, stepErrors])
  simpa using this

theorem deletionBranch_failStop {ω ρ : Type} (r : SwxfllReconciler ω ρ) (now : Nat → Time)
    (req : Request) (p : Swxfll) (w : World ω ρ)
    (h1 : stepErrors w.log = []) (h2 : w.log.all (fun u => !removesFinalizer u) = true) :
    failStop (deletionBranch r now req p w).1 (deletionBranch r now req p w).2.log = true := by
  unfold deletionBranch
  simp only [World.record, World.wrote]
  repeat' split
  all_goals
    simp only [List.append_assoc]
    first
    | exact failStop_clean _ _ h1 h2
    | (apply failStop_extend _ _ _ h1 h2
       simp [failStop, stepErrors, isDeletionStep, degradedSucceeded, removesFinalizer,
         persistsDegraded, terminalDegraded_set, errOf, *])

theorem stepErrors_snoc (a : List Entry) (e : Entry) (h1 : stepErrors a = [])
    (he : isDeletionStep e = false) : stepErrors (a ++ [e]) = [] := by
  unfold stepErrors at h1 ⊢
  rw [List.filterMap_append, h1]
  simp [he]

theorem notRemoves_snoc (a : List Entry) (e : Entry)
    (h2 : a.all (fun u => !removesFinalizer u) = true) (he : removesFinalizer e = false) :
    (a ++ [e]).all (fun u => !removesFinalizer u) = true := by
  rw [List.all_append, h2]
  simp [he]

theorem ensureFinalizer_failStop {ω ρ : Type} (r : SwxfllReconciler ω ρ) (now : Nat → Time)
    (req : Request) (p : Swxfll) (w : World ω ρ)
    (h1 : stepErrors w.log = []) (h2 : w.log.all (fun u => !removesFinalizer u) = true) :
    failStop (ensureFinalizer r now req p w).1 (ensureFinalizer r now req p w).2.log = true := by
  have hrest : ∀ (q : Swxfll) (v : World ω ρ), stepErrors v.log = [] →
      v.log.all (fun u => !removesFinalizer u) = true →
      failStop (if q.DeletionTimestamp.isSome = true then deletionBranch r now req q v
        else steadyState r q v).1
        (if q.DeletionTimestamp.isSome = true then deletionBranch r now req q v
        else steadyState r q v).2.log = true := by
    intro q v hv1 hv2
    split
    · exact deletionBranch_failStop r now req q v hv1 hv2
    · rw [steadyState_eq]
      exact failStop_clean _ _ (stepErrors_snoc _ _ hv1 rfl) (notRemoves_snoc _ _ hv2 rfl)
  unfold ensureFinalizer
  simp only
  split
  · split
    · exact failStop_clean _ _ h1 h2
    · next q hq =>
      have hc := addFinalizer_contains _ _ _ hq
      have hn : ∀ e : Option Error, removesFinalizer ⟨126, .Update q, e⟩ = false := by
        intro e
        simp [removesFinalizer, hc]
      split
      · exact failStop_clean _ _ (stepErrors_snoc _ _ h1 rfl) (notRemoves_snoc _ _ h2 (hn _))
      · exact hrest _ _ (stepErrors_snoc _ _ h1 rfl) (notRemoves_snoc _ _ h2 (hn _))
  · exact hrest _ _ h1 h2

theorem ensureStatus_failStop {ω ρ : Type} (r : SwxfllReconciler ω ρ) (now : Nat → Time)
    (req : Request) (p : Swxfll) (w : World ω ρ)
    (h1 : stepErrors w.log = []) (h2 : w.log.all (fun u => !removesFinalizer u) = true) :
    failStop (ensureStatus r now req p w).1 (ensureStatus r now req p w).2.log = true := by
  unfold ensureStatus
  simp only
  split
  · split
    · exact failStop_clean _ _ (stepErrors_snoc _ _ h1 rfl) (notRemoves_snoc _ _ h2 rfl)
    · split
      · exact failStop_clean _ _
          (stepErrors_snoc _ _ (stepErrors_snoc _ _ h1 rfl) rfl)
          (notRemoves_snoc _ _ (notRemoves_snoc _ _ h2 rfl) rfl)
      · exact ensureFinalizer_failStop r now req _ _
          (stepErrors_snoc _ _ (stepErrors_snoc _ _ h1 rfl) rfl)
          (notRemoves_snoc _ _ (notRemoves_snoc _ _ h2 rfl) rfl)
  · exact ensureFinalizer_failStop r now req p w h1 h2

theorem Reconcile_failStop {ω ρ : Type} (r : SwxfllReconciler ω ρ) (now : Nat → Time)
    (req : Request) (store : ω) (sink : ρ) :
    failStop (Reconcile r now req ⟨store, sink, []⟩).1
      (Reconcile r now req ⟨store, sink, []⟩).2.log = true := by
  unfold Reconcile
  simp only
  split
  · split
    · exact failStop_clean _ _ (stepErrors_snoc _ _ rfl rfl) (notRemoves_snoc _ _ rfl rfl)
    · exact ensureStatus_failStop r now req _ _
        (stepErrors_snoc _ _ rfl rfl) (notRemoves_snoc _ _ rfl rfl)
  · exact ensureStatus_failStop r now req _ _
      (stepErrors_snoc _ _ rfl rfl) (notRemoves_snoc _ _ rfl rfl)

theorem failStop_spec (res : GoResult (Result × Option Error)) (log : List Entry)
    (h : failStop res log = true) :
    (∀ e ∈ log, isDeletionStep e = true → ∀ err, e.err = some err →
      res = .ret ({}, some err) ∧ ∀ u ∈ log, removesFinalizer u = false) ∧
    (∀ u ∈ log, removesFinalizer u = true →
      ∃ d ∈ log, d.line = 174 ∧ d.err = none ∧ persistsDegraded d = true) := by
  unfold failStop at h
  simp only [Bool.and_eq_true, Bool.or_eq_true, List.all_eq_true, List.any_eq_true,
    Bool.not_eq_true', beq_iff_eq, List.isEmpty_iff] at h
  obtain ⟨⟨ha, hb⟩, hc⟩ := h
  constructor
  · intro e he hstep err herr
    have hmem : err ∈ stepErrors log := by
      unfold stepErrors
      rw [List.mem_filterMap]
      exact ⟨e, he, by simp [hstep, herr]⟩
    refine ⟨ha err hmem, ?_⟩
    rcases hb with hb | hb
    · rw [hb] at hmem
      cases hmem
    · exact hb
  · intro u hu hrem
    rcases hc with hc | ⟨d, hd, hds⟩
    · have := hc u hu
      rw [hrem] at this
      cases this
    · refine ⟨d, hd, ?_⟩
      simp only [degradedSucceeded, Bool.and_eq_true, beq_iff_eq, Option.isNone_iff_eq_none] at hds
      exact ⟨hds.1.1, hds.1.2, hds.2⟩

/-- The run of a settled parent: one condition or more, the finalizer, no
deletionTimestamp. Only the two reads of lines 82 and 196 are made. -/
theorem Reconcile_settled {ω ρ : Type} (r : SwxfllReconciler ω ρ) (now : Nat → Time)
    (req : Request) (w : World ω ρ) (p : Swxfll)
    (hget : r.Client.Get w.store req.NamespacedName = .ok p)
    (hcond : p.Status.Conditions ≠ [])
    (hfin : ContainsFinalizer p swxfllFinalizer = true)
    (hdel : p.DeletionTimestamp = none) :
    Reconcile r now req w =
      (.ret ({}, none),
        { w with
          log := w.log ++
            [ ⟨82, .Get req.NamespacedName, none⟩,
              ⟨196, .GetDeployment { Name := p.Name, Namespace := p.Namespace },
                errOf (r.Client.GetDeployment w.store
                  { Name := p.Name, Namespace := p.Namespace })⟩ ] }) := by
  have hlen : p.Status.Conditions.length ≠ 0 := by
    cases hc : p.Status.Conditions with
    | nil => exact absurd hc hcond
    | cons a l => simp
  simp [Reconcile, hget, ensureStatus, hlen, ensureFinalizer, hfin, hdel, steadyState_eq,
    World.record, errOf]

theorem deletionBranch_visible {ω ρ ρ2 : Type} (r : SwxfllReconciler ω ρ)
    (rec1 : EventRecorder ρ) (hrec : r.Recorder = some rec1) (rec2 : EventRecorder ρ2)
    (now : Nat → Time) (req : Request) (p : Swxfll)
    (store : ω) (log : List Entry) (sink : ρ) (sink2 : ρ2) :
    (deletionBranch r now req p ⟨store, sink, log⟩).visible =
      (deletionBranch ⟨r.Client, r.Scheme, some rec2⟩ now req p ⟨store, sink2, log⟩).visible := by
  unfold deletionBranch
  simp only [World.record, World.wrote, Outcome.visible, doFinalizerOperationsForSwxfll, hrec]
  repeat' split
  all_goals simp_all

theorem ensureFinalizer_visible {ω ρ ρ2 : Type} (r : SwxfllReconciler ω ρ)
    (rec1 : EventRecorder ρ) (hrec : r.Recorder = some rec1) (rec2 : EventRecorder ρ2)
    (now : Nat → Time) (req : Request) (p : Swxfll)
    (store : ω) (log : List Entry) (sink : ρ) (sink2 : ρ2) :
    (ensureFinalizer r now req p ⟨store, sink, log⟩).visible =
      (ensureFinalizer ⟨r.Client, r.Scheme, some rec2⟩ now req p ⟨store, sink2, log⟩).visible := by
  have hrest : ∀ (q : Swxfll) (st : ω) (lg : List Entry),
      (if q.DeletionTimestamp.isSome = true then deletionBranch r now req q ⟨st, sink, lg⟩
        else steadyState r q ⟨st, sink, lg⟩).visible =
      (if q.DeletionTimestamp.isSome = true then
          deletionBranch ⟨r.Client, r.Scheme, some rec2⟩ now req q ⟨st, sink2, lg⟩
        else steadyState ⟨r.Client, r.Scheme, some rec2⟩ q ⟨st, sink2, lg⟩).visible := by
    intro q st lg
    split
    · exact deletionBranch_visible r rec1 hrec rec2 now req q st lg sink sink2
    · simp [steadyState_eq, World.record, Outcome.visible]
  unfold ensureFinalizer
  simp only [World.wrote]
  split
  · split
    · rfl
    · split
      · rfl
      · exact hrest _ _ _
  · exact hrest _ _ _

theorem ensureStatus_visible {ω ρ ρ2 : Type} (r : SwxfllReconciler ω ρ)
    (rec1 : EventRecorder ρ) (hrec : r.Recorder = some rec1) (rec2 : EventRecorder ρ2)
    (now : Nat → Time) (req : Request) (p : Swxfll)
    (store : ω) (log : List Entry) (sink : ρ) (sink2 : ρ2) :
    (ensureStatus r now req p ⟨store, sink, log⟩).visible =
      (ensureStatus ⟨r.Client, r.Scheme, some rec2⟩ now req p ⟨store, sink2, log⟩).visible := by
  unfold ensureStatus
  simp only [World.wrote, World.record]
  split
  · split
    · rfl
    · split
      · rfl
      · exact ensureFinalizer_visible r rec1 hrec rec2 now req _ _ _ sink sink2
  · exact ensureFinalizer_visible r rec1 hrec rec2 now req _ _ _ sink sink2

theorem Reconcile_visible {ω ρ ρ2 : Type} (r : SwxfllReconciler ω ρ)
    (rec1 : EventRecorder ρ) (hrec : r.Recorder = some rec1) (rec2 : EventRecorder ρ2)
    (now : Nat → Time) (req : Request)
    (store : ω) (log : List Entry) (sink : ρ) (sink2 : ρ2) :
    (Reconcile r now req ⟨store, sink, log⟩).visible =
      (Reconcile ⟨r.Client, r.Scheme, some rec2⟩ now req ⟨store, sink2, log⟩).visible := by
  unfold Reconcile
  simp only [World.record]
  split
  · split
    · rfl
    · exact ensureStatus_visible r rec1 hrec rec2 now req _ _ _ sink sink2
  · exact ensureStatus_visible r rec1 hrec rec2 now req _ _ _ sink sink2

theorem setExisting_types (nc : Condition) (now : Time) (cs : List Condition) :
    (setExisting nc now cs).map (fun c => c.CondType) = cs.map (fun c => c.CondType) := by
  induction cs with
  | nil => rfl
  | cons c cs ih =>
    unfold setExisting
    by_cases hc : c.CondType = nc.CondType
    · by_cases hs : c.Status = nc.Status <;> simp [hc, hs]
    · simp [hc, ih]

theorem setStatusCondition_unique (cs : List Condition) (nc : Condition) (now : Time)
    (h : uniqueTypes cs) : uniqueTypes (SetStatusCondition cs nc now) := by
  unfold SetStatusCondition
  split
  · unfold uniqueTypes
    rw [setExisting_types]
    exact h
  · next hany =>
    unfold uniqueTypes at h ⊢
    rw [List.map_append, List.nodup_append]
    refine ⟨h, by simp, ?_⟩
    have hty : (if nc.LastTransitionTime = 0 then { nc with LastTransitionTime := now }
        else nc).CondType = nc.CondType := by split <;> rfl
    intro a ha hb
    simp only [List.map_cons, List.map_nil, List.mem_singleton, hty] at hb
    subst hb
    rw [List.mem_map] at ha
    obtain ⟨c, hc, hce⟩ := ha
    apply hany
    rw [List.any_eq_true]
    exact ⟨c, hc, by simp [hce]⟩

theorem setExisting_keeps_time (nc : Condition) (now : Time) (cs : List Condition)
    (h : uniqueTypes cs) (c : Condition) (hc : c ∈ cs) (hty : c.CondType = nc.CondType)
    (hst : c.Status = nc.Status) :
    ∃ c2 ∈ setExisting nc now cs,
      c2.CondType = nc.CondType ∧ c2.LastTransitionTime = c.LastTransitionTime := by
  induction cs with
  | nil => cases hc
  | cons a cs ih =>
    unfold uniqueTypes at h
    rw [List.map_cons, List.nodup_cons] at h
    unfold setExisting
    by_cases ha : a.CondType = nc.CondType
    · have hca : c = a := by
        rcases List.mem_cons.1 hc with rfl | hmem
        · rfl
        · exact absurd (List.mem_map.2 ⟨c, hmem, by rw [hty, ha]⟩) h.1
      subst hca
      simp [ha, hst]
    · have hmem : c ∈ cs := by
        rcases List.mem_cons.1 hc with rfl | hmem
        · exact absurd hty ha
        · exact hmem
      obtain ⟨c2, hc2, h2⟩ := ih h.2 hmem
      exact ⟨c2, by simp [ha, hc2], h2⟩

theorem setStatusCondition_keeps_time (cs : List Condition) (nc : Condition) (now : Time)
    (h : uniqueTypes cs) (c : Condition) (hc : c ∈ cs) (hty : c.CondType = nc.CondType)
    (hst : c.Status = nc.Status) :
    ∃ c2 ∈ SetStatusCondition cs nc now,
      c2.CondType = nc.CondType ∧ c2.LastTransitionTime = c.LastTransitionTime := by
  unfold SetStatusCondition
  split
  · exact setExisting_keeps_time nc now cs h c hc hty hst
  · next hany =>
    exfalso
    apply hany
    rw [List.any_eq_true]
    exact ⟨c, hc, by simp [hty]⟩

theorem upsertEntry_statusUpdate (line : Nat) (p : Swxfll) (nc : Condition) (t : Time)
    (err : Option Error) (hp : uniqueTypes p.Status.Conditions)
    (hnc : upsertAt line nc = true) :
    upsertEntry ⟨line, .StatusUpdate
      { p with Status.Conditions := SetStatusCondition p.Status.Conditions nc t }, err⟩ := by
  intro o ho
  simp only [Call.StatusUpdate.injEq] at ho
  subst ho
  exact ⟨p.Status.Conditions, nc, t, hp, hnc, rfl, setStatusCondition_unique _ _ _ hp,
    fun c hc hty hst => setStatusCondition_keeps_time _ _ _ hp c hc hty hst⟩

theorem upsertEntry_other (e : Entry) (h : ∀ o : Swxfll, e.call ≠ .StatusUpdate o) :
    upsertEntry e :=
  fun o ho => absurd ho (h o)

theorem forall_snoc {α : Type} (P : α → Prop) (l : List α) (a : α)
    (hl : ∀ x ∈ l, P x) (ha : P a) : ∀ x ∈ l ++ [a], P x := by
  intro x hx
  rcases List.mem_append.1 hx with h | h
  · exact hl x h
  · rw [List.mem_singleton.1 h]
    exact ha

theorem deletionBranch_upserts {ω ρ : Type} (r : SwxfllReconciler ω ρ) (now : Nat → Time)
    (req : Request) (p : Swxfll) (w : World ω ρ)
    (hget : ∀ (s : ω) (key : NamespacedName) (q : Swxfll),
      r.Client.Get s key = .ok q → uniqueTypes q.Status.Conditions)
    (hp : uniqueTypes p.Status.Conditions) (hw : ∀ e ∈ w.log, upsertEntry e) :
    ∀ e ∈ (deletionBranch r now req p w).2.log, upsertEntry e := by
  unfold deletionBranch
  simp only [World.record, World.wrote]
  repeat' split
  all_goals
    first
    | exact hw
    | refine forall_snoc upsertEntry _ _ hw ?_
    | refine forall_snoc upsertEntry _ _ (forall_snoc upsertEntry _ _ hw ?_) ?_
    | refine forall_snoc upsertEntry _ _
        (forall_snoc upsertEntry _ _ (forall_snoc upsertEntry _ _ hw ?_) ?_) ?_
    | refine forall_snoc upsertEntry _ _
        (forall_snoc upsertEntry _ _
          (forall_snoc upsertEntry _ _ (forall_snoc upsertEntry _ _ hw ?_) ?_) ?_) ?_
  all_goals
    first
    | exact upsertEntry_statusUpdate _ _ _ _ _ hp rfl
    | exact upsertEntry_statusUpdate _ _ _ _ _ (hget _ _ _ (by assumption)) rfl
    | exact upsertEntry_other _ (by intro o h; cases h)

theorem ensureFinalizer_upserts {ω ρ : Type} (r : SwxfllReconciler ω ρ) (now : Nat → Time)
    (req : Request) (p : Swxfll) (w : World ω ρ)
    (hget : ∀ (s : ω) (key : NamespacedName) (q : Swxfll),
      r.Client.Get s key = .ok q → uniqueTypes q.Status.Conditions)
    (hupd : ∀ (s : ω) (o q : Swxfll),
      (r.Client.Update s o).1 = .ok q → uniqueTypes q.Status.Conditions)
    (hp : uniqueTypes p.Status.Conditions) (hw : ∀ e ∈ w.log, upsertEntry e) :
    ∀ e ∈ (ensureFinalizer r now req p w).2.log, upsertEntry e := by
  have hrest : ∀ (q : Swxfll) (v : World ω ρ), uniqueTypes q.Status.Conditions →
      (∀ e ∈ v.log, upsertEntry e) →
      ∀ e ∈ (if q.DeletionTimestamp.isSome = true then deletionBranch r now req q v
        else steadyState r q v).2.log, upsertEntry e := by
    intro q v hq hv
    split
    · exact deletionBranch_upserts r now req q v hget hq hv
    · rw [steadyState_eq]
      exact forall_snoc upsertEntry _ _ hv (upsertEntry_other _ (by intro o h; cases h))
  unfold ensureFinalizer
  simp only
  split
  · split
    · exact hw
    · split
      · exact forall_snoc upsertEntry _ _ hw (upsertEntry_other _ (by intro o h; cases h))
      · next a ha =>
        exact hrest _ _ (hupd _ _ _ ha)
          (forall_snoc upsertEntry _ _ hw (upsertEntry_other _ (by intro o h; cases h)))
  · exact hrest _ _ hp hw

theorem ensureStatus_upserts {ω ρ : Type} (r : SwxfllReconciler ω ρ) (now : Nat → Time)
    (req : Request) (p : Swxfll) (w : World ω ρ)
    (hget : ∀ (s : ω) (key : NamespacedName) (q : Swxfll),
      r.Client.Get s key = .ok q → uniqueTypes q.Status.Conditions)
    (hupd : ∀ (s : ω) (o q : Swxfll),
      (r.Client.Update s o).1 = .ok q → uniqueTypes q.Status.Conditions)
    (hp : uniqueTypes p.Status.Conditions) (hw : ∀ e ∈ w.log, upsertEntry e) :
    ∀ e ∈ (ensureStatus r now req p w).2.log, upsertEntry e := by
  have h100 : ∀ err : Option Error, upsertEntry ⟨100, .StatusUpdate
      { p with
        Status.Conditions :=
          SetStatusCondition p.Status.Conditions
            { CondType := typeAvailableSwxfll
              Status := .ConditionUnknown
              Reason := "调和中"
              Message := "开始调和" } (now 94) }, err⟩ :=
    fun err => upsertEntry_statusUpdate _ _ _ _ err hp rfl
  unfold ensureStatus
  simp only
  split
  · split
    · exact forall_snoc upsertEntry _ _ hw (h100 _)
    · split
      · exact forall_snoc upsertEntry _ _ (forall_snoc upsertEntry _ _ hw (h100 _))
          (upsertEntry_other _ (by intro o h; cases h))
      · next a ha =>
        exact ensureFinalizer_upserts r now req _ _ hget hupd (hget _ _ _ ha)
          (forall_snoc upsertEntry _ _ (forall_snoc upsertEntry _ _ hw (h100 _))
            (upsertEntry_other _ (by intro o h; cases h)))
  · exact ensureFinalizer_upserts r now req p w hget hupd hp hw

theorem Reconcile_upserts {ω ρ : Type} (r : SwxfllReconciler ω ρ) (now : Nat → Time)
    (req : Request) (store : ω) (sink : ρ)
    (hget : ∀ (s : ω) (key : NamespacedName) (q : Swxfll),
      r.Client.Get s key = .ok q → uniqueTypes q.Status.Conditions)
    (hupd : ∀ (s : ω) (o q : Swxfll),
      (r.Client.Update s o).1 = .ok q → uniqueTypes q.Status.Conditions) :
    ∀ e ∈ (Reconcile r now req ⟨store, sink, []⟩).2.log, upsertEntry e := by
  have h0 : ∀ e ∈ ([] : List Entry), upsertEntry e := fun e he => by cases he
  unfold Reconcile
  simp only
  split
  · split
    · exact forall_snoc upsertEntry _ _ h0 (upsertEntry_other _ (by intro o h; cases h))
    · exact ensureStatus_upserts r now req _ _ hget hupd (by decide)
        (forall_snoc upsertEntry _ _ h0 (upsertEntry_other _ (by intro o h; cases h)))
  · next a ha =>
    exact ensureStatus_upserts r now req _ _ hget hupd (hget _ _ _ ha)
      (forall_snoc upsertEntry _ _ h0 (upsertEntry_other _ (by intro o h; cases h)))

theorem strictClient_get_unique (s : Mem) (key : NamespacedName) (q : Swxfll)
    (h : strictClient.Get s key = .ok q) : uniqueTypes q.Status.Conditions := by
  simp only [strictClient] at h
  split at h
  · split at h
    · next hu =>
      simp only [Except.ok.injEq] at h
      subst h
      exact hu
    · cases h
  · cases h

theorem strictClient_update_unique (s : Mem) (o q : Swxfll)
    (h : (strictClient.Update s o).1 = .ok q) : uniqueTypes q.Status.Conditions := by
  simp only [strictClient] at h
  split at h
  · split at h
    · next hu =>
      simp only [Except.ok.injEq] at h
      subst h
      exact hu
    · cases h
  · cases h

/-- The run on a parent marked for deletion with the reconciler as
`cmd/main.go` builds it: the nil recorder makes line 220 panic after the
status update of line 147; nothing is returned, the log stops there and the
stored parent keeps its finalizer. -/
theorem Reconcile_nil_recorder :
    (Reconcile wiredReconciler (fun _ => 50) demoRequest
      ⟨{ parent := some deletingParent }, {}, []⟩).1 =
      .panic "runtime error: invalid memory address or nil pointer dereference" ∧
    (Reconcile wiredReconciler (fun _ => 50) demoRequest
      ⟨{ parent := some deletingParent }, {}, []⟩).2.log.map (fun e => (e.line, e.err)) =
      [(82, none), (147, none)] ∧
    (Reconcile wiredReconciler (fun _ => 50) demoRequest
      ⟨{ parent := some deletingParent }, {}, []⟩).2.store.parent.map
        (fun q => ContainsFinalizer q swxfllFinalizer) = some true := by
  decide

/-! ## Claims -/

/-- C1: when the initial fetch of the parent returns NotFound, `Reconcile`
returns the empty result with a nil error, its only store call is that
fetch (so it issues no `Update`, `Status().Update` or `Create`), and the
store is left as it was. -/
theorem reconcile_notFound_no_writes {ω ρ : Type} (r : SwxfllReconciler ω ρ)
    (now : Nat → Time) (req : Request) (store : ω) (sink : ρ) (err : Error)
    (hget : r.Client.Get store req.NamespacedName = .error err)
    (hnf : IsNotFound err = true) :
    (Reconcile r now req ⟨store, sink, []⟩).1 = .ret ({ Requeue := false, RequeueAfter := 0 }, none) ∧
    (Reconcile r now req ⟨store, sink, []⟩).2.log =
      [⟨82, .Get req.NamespacedName, some err⟩] ∧
    writesOf (Reconcile r now req ⟨store, sink, []⟩).2.log = [] ∧
    (Reconcile r now req ⟨store, sink, []⟩).2.store = store := by
  simp [Reconcile, hget, hnf, World.record, errOf, writesOf, Call.isWrite]

theorem reconcile_notFound_no_writes_witness :
    memClient.Get {} demoRequest.NamespacedName = .error notFoundError ∧
    IsNotFound notFoundError = true ∧
    (Reconcile demoReconciler (fun _ => 50) demoRequest ⟨{}, {}, []⟩).1 = .ret ({}, none) ∧
    writesOf (Reconcile demoReconciler (fun _ => 50) demoRequest ⟨{}, {}, []⟩).2.log = [] :=
  have h := reconcile_notFound_no_writes demoReconciler (fun _ => 50) demoRequest {} {}
    notFoundError rfl (by decide)
  ⟨rfl, by decide, h.1, h.2.2.1⟩

/-- C2, evaluated where the code departs from it. (a) The initial fetch
answers ServiceUnavailable: `Reconcile` does not return but goes on with the
zero-valued object and issues the `Status().Update` of line 100. (b) The
fetch of the child answers ServiceUnavailable: `Reconcile` returns the empty
result with a nil error. -/
theorem reconcile_get_errors_not_propagated :
    ((Reconcile demoReconciler (fun _ => 50) demoRequest
        ⟨{ parent := some demoParent, getError := some unavailableError }, {}, []⟩).2.log.map
      (fun e => (e.line, e.call.isWrite, e.err.map IsNotFound)) =
      [(82, false, some false), (100, true, some true)]) ∧
    ((Reconcile demoReconciler (fun _ => 50) demoRequest
        ⟨{ parent := some demoParent, childError := some unavailableError }, {}, []⟩).2.log.map
      (fun e => (e.line, e.call.isWrite, e.err.map IsNotFound)) =
      [(82, false, none), (196, false, some false)]) ∧
    (Reconcile demoReconciler (fun _ => 50) demoRequest
        ⟨{ parent := some demoParent, childError := some unavailableError }, {}, []⟩).1 =
      .ret ({ Requeue := false, RequeueAfter := 0 }, none) := by
  decide

/-- C3: for a parent fetched with its deletionTimestamp set and the finalizer
present, every `Update` in the call log of `Reconcile` whose object lacks the
finalizer comes strictly after a successful `Status().Update` whose object
carries the condition Degraded / True / `Finalizing`. -/
theorem finalizer_removal_after_degraded {ω ρ : Type} (r : SwxfllReconciler ω ρ)
    (now : Nat → Time) (req : Request) (store : ω) (sink : ρ) (p : Swxfll)
    (_hget : r.Client.Get store req.NamespacedName = .ok p)
    (_hdel : p.DeletionTimestamp.isSome = true)
    (_hfin : ContainsFinalizer p swxfllFinalizer = true)
    (l1 l2 : List Entry) (u : Entry)
    (hlog : (Reconcile r now req ⟨store, sink, []⟩).2.log = l1 ++ u :: l2)
    (hu : removesFinalizer u = true) :
    ∃ d ∈ l1, persistsDegraded d = true := by
  have h := Reconcile_ordered r now req ⟨store, sink, []⟩ false rfl
  rcases orderedFrom_spec _ false h l1 l2 u hlog hu with h1 | h1
  · cases h1
  · exact h1

theorem finalizer_removal_after_degraded_witness :
    ((Reconcile demoReconciler (fun _ => 50) demoRequest
        ⟨{ parent := some deletingParent }, {}, []⟩).2.log.map
      (fun e => (e.line, removesFinalizer e, persistsDegraded e)) =
      [(82, false, false), (147, false, false), (162, false, false), (174, false, true),
        (185, true, false)]) ∧
    ∃ d ∈ (Reconcile demoReconciler (fun _ => 50) demoRequest
        ⟨{ parent := some deletingParent }, {}, []⟩).2.log.take 4, persistsDegraded d = true :=
  ⟨by decide,
    finalizer_removal_after_degraded demoReconciler (fun _ => 50) demoRequest
      { parent := some deletingParent } {} deletingParent rfl (by decide) (by decide)
      ((Reconcile demoReconciler (fun _ => 50) demoRequest
        ⟨{ parent := some deletingParent }, {}, []⟩).2.log.take 4) []
      ⟨185, .Update { deletingParent with
          Finalizers := []
          Status.Conditions :=
            SetStatusCondition
              (SetStatusCondition deletingParent.Status.Conditions
                { CondType := typeAvailableSwxfll, Status := .ConditionUnknown,
                  Reason := "Finalizing",
                  Message := "执行自定义资源的 finalizer 操作: demo" } 50)
              { CondType := typeDegradedSwxfll, Status := .ConditionTrue,
                Reason := "Finalizing",
                Message := "自定义资源 demo 的 finalizer 操作已成功完成" } 50 }, none⟩
      (by decide) (by decide)⟩

/-- C4 as stated fails: with an event recorder whose emission fails, the
cleanup step has failed (the sink says so), and yet `Reconcile` issues the
update that removes the finalizer, the store drops the parent, and the pair
returned is the empty result with a nil error: the finalizer is not kept and
no re-invocation is requested. -/
theorem reconcile_failed_cleanup_removes_finalizer :
    (Reconcile brokenReconciler (fun _ => 50) demoRequest
      ⟨{ parent := some deletingParent }, {}, []⟩).2.sink.failed = true ∧
    (Reconcile brokenReconciler (fun _ => 50) demoRequest
      ⟨{ parent := some deletingParent }, {}, []⟩).2.store.parent = none ∧
    (Reconcile brokenReconciler (fun _ => 50) demoRequest
      ⟨{ parent := some deletingParent }, {}, []⟩).1 = .ret ({}, none) ∧
    ¬ ((Reconcile brokenReconciler (fun _ => 50) demoRequest
          ⟨{ parent := some deletingParent }, {}, []⟩).2.sink.failed = true →
        (Reconcile brokenReconciler (fun _ => 50) demoRequest
          ⟨{ parent := some deletingParent }, {}, []⟩).2.log.all
            (fun u => !removesFinalizer u) = true ∧
        requestsReinvocation (Reconcile brokenReconciler (fun _ => 50) demoRequest
          ⟨{ parent := some deletingParent }, {}, []⟩).1 = true) := by
  decide

/-- C4, amended: for every parent fetched with its deletionTimestamp set and
the finalizer present, and every reconciler whose event recorder is set, the
cleanup step returns nothing to `Reconcile`: what `Reconcile` returns, the
store afterwards and the call log are the same whatever recorder (failing or
not) and event sink the cleanup step runs on. -/
theorem reconcile_independent_of_cleanup {ω ρ ρ2 : Type} (r : SwxfllReconciler ω ρ)
    (rec1 : EventRecorder ρ) (rec2 : EventRecorder ρ2) (now : Nat → Time) (req : Request)
    (store : ω) (sink : ρ) (sink2 : ρ2) (p : Swxfll)
    (hrec : r.Recorder = some rec1)
    (_hget : r.Client.Get store req.NamespacedName = .ok p)
    (_hdel : p.DeletionTimestamp.isSome = true)
    (_hfin : ContainsFinalizer p swxfllFinalizer = true) :
    (Reconcile r now req ⟨store, sink, []⟩).visible =
      (Reconcile ⟨r.Client, r.Scheme, some rec2⟩ now req ⟨store, sink2, []⟩).visible :=
  Reconcile_visible r rec1 hrec rec2 now req store [] sink sink2

theorem reconcile_independent_of_cleanup_witness :
    (Reconcile demoReconciler (fun _ => 50) demoRequest
      ⟨{ parent := some deletingParent }, {}, []⟩).2.sink.failed = false ∧
    (Reconcile brokenReconciler (fun _ => 50) demoRequest
      ⟨{ parent := some deletingParent }, {}, []⟩).2.sink.failed = true ∧
    (Reconcile demoReconciler (fun _ => 50) demoRequest
      ⟨{ parent := some deletingParent }, {}, []⟩).visible =
    (Reconcile brokenReconciler (fun _ => 50) demoRequest
      ⟨{ parent := some deletingParent }, {}, []⟩).visible :=
  ⟨by decide, by decide,
    reconcile_independent_of_cleanup demoReconciler okRecorder brokenRecorder (fun _ => 50)
      demoRequest { parent := some deletingParent } {} {} deletingParent rfl rfl
      (by decide) (by decide)⟩

/-- C5: in the call log of `Reconcile`, when one of the steps before the
removal of the finalizer (the status update of line 147, the re-fetch of
line 162, the status update of line 174) returned an error, `Reconcile`
returns the empty result with that error and no `Update` of the log removes
the finalizer; and whenever an `Update` of the log removes the finalizer, the
status update of line 174, carrying the terminal Degraded condition, is in
the log and succeeded. -/
theorem deletion_step_failure_keeps_finalizer {ω ρ : Type} (r : SwxfllReconciler ω ρ)
    (now : Nat → Time) (req : Request) (store : ω) (sink : ρ) :
    (∀ e ∈ (Reconcile r now req ⟨store, sink, []⟩).2.log, isDeletionStep e = true →
      ∀ err, e.err = some err →
        (Reconcile r now req ⟨store, sink, []⟩).1 =
          .ret ({ Requeue := false, RequeueAfter := 0 }, some err) ∧
        ∀ u ∈ (Reconcile r now req ⟨store, sink, []⟩).2.log, removesFinalizer u = false) ∧
    (∀ u ∈ (Reconcile r now req ⟨store, sink, []⟩).2.log, removesFinalizer u = true →
      ∃ d ∈ (Reconcile r now req ⟨store, sink, []⟩).2.log,
        d.line = 174 ∧ d.err = none ∧ persistsDegraded d = true) :=
  failStop_spec _ _ (Reconcile_failStop r now req store sink)

theorem deletion_step_failure_keeps_finalizer_witness :
    ((Reconcile demoReconciler (fun _ => 50) demoRequest
        ⟨{ parent := some deletingParent, writeError := some unavailableError }, {}, []⟩).2.log.map
      (fun e => (e.line, e.err)) = [(82, none), (147, some unavailableError)]) ∧
    (Reconcile demoReconciler (fun _ => 50) demoRequest
        ⟨{ parent := some deletingParent, writeError := some unavailableError }, {}, []⟩).1 =
      .ret ({}, some unavailableError) ∧
    ∀ u ∈ (Reconcile demoReconciler (fun _ => 50) demoRequest
        ⟨{ parent := some deletingParent, writeError := some unavailableError }, {}, []⟩).2.log,
      removesFinalizer u = false :=
  ⟨by decide,
    (deletion_step_failure_keeps_finalizer demoReconciler (fun _ => 50) demoRequest
      { parent := some deletingParent, writeError := some unavailableError } {}).1
      ⟨147, .StatusUpdate { deletingParent with
          Status.Conditions :=
            SetStatusCondition deletingParent.Status.Conditions
              { CondType := typeAvailableSwxfll, Status := .ConditionUnknown,
                Reason := "Finalizing",
                Message := "执行自定义资源的 finalizer 操作: demo" } 50 },
        some unavailableError⟩
      (by decide) (by decide) unavailableError rfl⟩

/-- C6, evaluated where the code departs from it: for a settled parent whose
child is absent, the fetch of line 196 answers NotFound and `Reconcile`
returns the empty result (no requeue) with a nil error, having issued no
`Create` and no other write. -/
theorem reconcile_absent_child_not_created :
    ((Reconcile demoReconciler (fun _ => 50) demoRequest
        ⟨{ parent := some demoParent }, {}, []⟩).2.log.map
      (fun e => (e.line, e.call.isWrite, e.err.map IsNotFound)) =
      [(82, false, none), (196, false, some true)]) ∧
    creates (Reconcile demoReconciler (fun _ => 50) demoRequest
        ⟨{ parent := some demoParent }, {}, []⟩).2.log = [] ∧
    (Reconcile demoReconciler (fun _ => 50) demoRequest
        ⟨{ parent := some demoParent }, {}, []⟩).1 =
      .ret ({ Requeue := false, RequeueAfter := 0 }, none) := by
  decide

/-- C7 as stated fails: with two observed replicas and `Spec.Size = 4`, the
call log of `Reconcile` holds no update of the child, so not exactly one. -/
theorem reconcile_drift_no_child_update :
    demoParent.Spec.Size = 4 ∧ driftedChild.Replicas = 2 ∧
    ¬ ∃ d : Deployment,
      childUpdates (Reconcile demoReconciler (fun _ => 50) demoRequest
        ⟨{ parent := some demoParent, child := some driftedChild }, {}, []⟩).2.log = [d] ∧
      d.Replicas = 4 := by
  refine ⟨by decide, by decide, ?_⟩
  rintro ⟨d, hd, -⟩
  have h : childUpdates (Reconcile demoReconciler (fun _ => 50) demoRequest
      ⟨{ parent := some demoParent, child := some driftedChild }, {}, []⟩).2.log = [] := by
    decide
  rw [h] at hd
  cases hd

/-- C7, amended: for every parent that is not being deleted (one condition or
more, the finalizer present, no deletionTimestamp) whose child Deployment
exists, whatever the child's replica count, `Reconcile` issues no update of
the child and no other write, leaves the store as it was, and returns the
empty result with a nil error. -/
theorem reconcile_existing_child_untouched {ω ρ : Type} (r : SwxfllReconciler ω ρ)
    (now : Nat → Time) (req : Request) (store : ω) (sink : ρ) (p : Swxfll) (d : Deployment)
    (hget : r.Client.Get store req.NamespacedName = .ok p)
    (hcond : p.Status.Conditions ≠ [])
    (hfin : ContainsFinalizer p swxfllFinalizer = true)
    (hdel : p.DeletionTimestamp = none)
    (hchild : r.Client.GetDeployment store { Name := p.Name, Namespace := p.Namespace } = .ok d) :
    childUpdates (Reconcile r now req ⟨store, sink, []⟩).2.log = [] ∧
    writesOf (Reconcile r now req ⟨store, sink, []⟩).2.log = [] ∧
    (Reconcile r now req ⟨store, sink, []⟩).2.store = store ∧
    (Reconcile r now req ⟨store, sink, []⟩).1 = .ret ({ Requeue := false, RequeueAfter := 0 }, none) := by
  rw [Reconcile_settled r now req ⟨store, sink, []⟩ p hget hcond hfin hdel]
  simp [hchild, errOf, childUpdates, writesOf, Call.isWrite]

theorem reconcile_existing_child_untouched_witness :
    driftedChild.Replicas = 2 ∧ demoParent.Spec.Size = 4 ∧
    childUpdates (Reconcile demoReconciler (fun _ => 50) demoRequest
      ⟨{ parent := some demoParent, child := some driftedChild }, {}, []⟩).2.log = [] ∧
    (Reconcile demoReconciler (fun _ => 50) demoRequest
      ⟨{ parent := some demoParent, child := some driftedChild }, {}, []⟩).2.store.child =
      some driftedChild :=
  have h := reconcile_existing_child_untouched demoReconciler (fun _ => 50) demoRequest
    { parent := some demoParent, child := some driftedChild } {} demoParent driftedChild
    rfl (by decide) (by decide) rfl rfl
  ⟨by decide, by decide, h.1, by rw [h.2.2.1]⟩

/-- C8: for every parent with at least one status condition, the finalizer
present and no deletionTimestamp, whose child Deployment exists (matching the
spec or not), `Reconcile` issues no write call and returns the empty result
with a nil error, leaving the store as it was; a second `Reconcile` on the
world the first one left does the same, so the two runs together hold no
write and the store is unchanged. -/
theorem reconcile_settled_idempotent {ω ρ : Type} (r : SwxfllReconciler ω ρ)
    (now now2 : Nat → Time) (req : Request) (store : ω) (sink : ρ) (p : Swxfll)
    (d : Deployment)
    (hget : r.Client.Get store req.NamespacedName = .ok p)
    (hcond : p.Status.Conditions ≠ [])
    (hfin : ContainsFinalizer p swxfllFinalizer = true)
    (hdel : p.DeletionTimestamp = none)
    (hchild : r.Client.GetDeployment store { Name := p.Name, Namespace := p.Namespace } = .ok d) :
    writesOf (Reconcile r now req ⟨store, sink, []⟩).2.log = [] ∧
    (Reconcile r now req ⟨store, sink, []⟩).1 = .ret ({ Requeue := false, RequeueAfter := 0 }, none) ∧
    (Reconcile r now req ⟨store, sink, []⟩).2.store = store ∧
    writesOf (Reconcile r now2 req (Reconcile r now req ⟨store, sink, []⟩).2).2.log = [] ∧
    (Reconcile r now2 req (Reconcile r now req ⟨store, sink, []⟩).2).1 =
      .ret ({ Requeue := false, RequeueAfter := 0 }, none) ∧
    (Reconcile r now2 req (Reconcile r now req ⟨store, sink, []⟩).2).2.store = store := by
  rw [Reconcile_settled r now req ⟨store, sink, []⟩ p hget hcond hfin hdel]
  rw [Reconcile_settled r now2 req _ p hget hcond hfin hdel]
  simp [hchild, errOf, writesOf, Call.isWrite]

theorem reconcile_settled_idempotent_witness :
    deploymentForSwxfll demoEnviron demoScheme demoParent = .ret (some matchingChild, none) ∧
    writesOf (Reconcile demoReconciler (fun _ => 51) demoRequest
      (Reconcile demoReconciler (fun _ => 50) demoRequest
        ⟨{ parent := some demoParent, child := some matchingChild }, {}, []⟩).2).2.log = [] ∧
    (Reconcile demoReconciler (fun _ => 51) demoRequest
      (Reconcile demoReconciler (fun _ => 50) demoRequest
        ⟨{ parent := some demoParent, child := some matchingChild }, {}, []⟩).2).2.store =
      { parent := some demoParent, child := some matchingChild } :=
  have h := reconcile_settled_idempotent demoReconciler (fun _ => 50) (fun _ => 51) demoRequest
    { parent := some demoParent, child := some matchingChild } {} demoParent matchingChild
    rfl (by decide) (by decide) rfl rfl
  ⟨by decide, h.2.2.2.1, h.2.2.2.2.2⟩

/-- C9: when the lookup of `SWXFLL_IMAGE` finds nothing, `deploymentForSwxfll`
returns no Deployment together with an error, and does not panic;
`imageForSwxfll` returns an error exactly when the variable is not set, and
otherwise returns the variable's value unchanged with a nil error. -/
theorem deploymentForSwxfll_missing_image (env : Environ) (scheme : Scheme) (swxfll : Swxfll) :
    (env "SWXFLL_IMAGE" = none →
      ∃ err, imageForSwxfll env = ("", some err) ∧
        deploymentForSwxfll env scheme swxfll = .ret (none, some err)) ∧
    ((imageForSwxfll env).2 ≠ none ↔ env "SWXFLL_IMAGE" = none) ∧
    (∀ image, env "SWXFLL_IMAGE" = some image → imageForSwxfll env = (image, none)) := by
  refine ⟨?_, ?_, ?_⟩
  · intro h
    refine ⟨⟨"", "无法找到 SWXFLL_IMAGE 环境变量与镜像"⟩, ?_, ?_⟩
    · simp [imageForSwxfll, h]
    · simp [deploymentForSwxfll, labelsForSwxfll, imageForSwxfll, h]
  · cases h : env "SWXFLL_IMAGE" <;> simp [imageForSwxfll, h]
  · intro image h
    simp [imageForSwxfll, h]

theorem deploymentForSwxfll_missing_image_witness :
    emptyEnviron "SWXFLL_IMAGE" = none ∧
    ∃ err, imageForSwxfll emptyEnviron = ("", some err) ∧
      deploymentForSwxfll emptyEnviron demoScheme demoParent = .ret (none, some err) :=
  ⟨rfl, (deploymentForSwxfll_missing_image emptyEnviron demoScheme demoParent).1 rfl⟩

/-- C10: for every parent and every image the lookup of `SWXFLL_IMAGE`
resolves to, the Deployment that `deploymentForSwxfll` returns has the
parent's name and namespace, `Spec.Size` replicas, exactly one container,
whose image is the resolved image and whose single port is
`Spec.ContainerPort`, and selector match-labels and pod-template labels both
equal to what `labelsForSwxfll` returns for the parent's name; and a
Deployment is returned whenever the image splits at `:` into two pieces or
more and the scheme knows the kind of the parent. -/
theorem deploymentForSwxfll_fields (env : Environ) (scheme : Scheme) (swxfll : Swxfll)
    (image : String) (himg : env "SWXFLL_IMAGE" = some image) :
    (∀ dep : Deployment, deploymentForSwxfll env scheme swxfll = .ret (some dep, none) →
      dep.Name = swxfll.Name ∧ dep.Namespace = swxfll.Namespace ∧
      dep.Replicas = swxfll.Spec.Size ∧
      (∃ c port, dep.Containers = [c] ∧ c.Image = image ∧ c.Ports = [port] ∧
        port.ContainerPort = swxfll.Spec.ContainerPort) ∧
      labelsForSwxfll env swxfll.Name = .ret dep.SelectorMatchLabels ∧
      labelsForSwxfll env swxfll.Name = .ret dep.TemplateLabels) ∧
    (∀ (a tag : String) (rest : List String) (gvk : GroupVersionKind),
      stringsSplit image ':' = a :: tag :: rest → scheme.SwxfllKind = some gvk →
      ∃ dep : Deployment, deploymentForSwxfll env scheme swxfll = .ret (some dep, none)) := by
  constructor
  · intro dep hret
    unfold deploymentForSwxfll at hret
    cases hl : labelsForSwxfll env swxfll.Name with
    | panic msg => simp [hl] at hret
    | ret ls =>
      simp only [hl, imageForSwxfll, himg] at hret
      cases hk : scheme.SwxfllKind with
      | none => simp [SetControllerReference, hk] at hret
      | some gvk =>
        simp [SetControllerReference, hk, upsertOwnerRef] at hret
        subst hret
        simp
  · intro a tag rest gvk hsplit hk
    simp [deploymentForSwxfll, labelsForSwxfll, imageForSwxfll, himg, hsplit,
      SetControllerReference, hk, upsertOwnerRef]

theorem deploymentForSwxfll_fields_witness :
    demoEnviron "SWXFLL_IMAGE" = some "memcached:1.4.36-alpine" ∧
    deploymentForSwxfll demoEnviron demoScheme demoParent = .ret (some matchingChild, none) ∧
    matchingChild.Replicas = demoParent.Spec.Size ∧
    labelsForSwxfll demoEnviron demoParent.Name = .ret matchingChild.SelectorMatchLabels :=
  have h := (deploymentForSwxfll_fields demoEnviron demoScheme demoParent
    "memcached:1.4.36-alpine" (by decide)).1 matchingChild (by decide)
  ⟨by decide, by decide, h.2.2.1, h.2.2.2.2.1⟩

/-- C11, evaluated where the code departs from it: for an image without `:`
(and for the empty image) the index `[1]` of line 332 is out of range and
`labelsForSwxfll` panics instead of returning labels with an empty version;
for an image whose registry carries a port the version label is the piece
after the first `:`, not the tag. With a plain `name:tag` image the version
label is the tag, and with the variable unset it is empty. -/
theorem labelsForSwxfll_panics_without_colon :
    labelsForSwxfll (fun _ => some "memcached") "demo" =
      .panic "runtime error: index out of range [1]" ∧
    labelsForSwxfll (fun _ => some "") "demo" =
      .panic "runtime error: index out of range [1]" ∧
    (∃ ls, labelsForSwxfll (fun _ => some "localhost:5000/memcached:1.4") "demo" = .ret ls ∧
      ("app.kubernetes.io/version", "5000/memcached") ∈ ls) ∧
    (∃ ls, labelsForSwxfll demoEnviron "demo" = .ret ls ∧
      ("app.kubernetes.io/version", "1.4.36-alpine") ∈ ls) ∧
    (∃ ls, labelsForSwxfll emptyEnviron "demo" = .ret ls ∧
      ("app.kubernetes.io/version", "") ∈ ls) := by
  refine ⟨by decide, by decide, ⟨_, rfl, by decide⟩, ⟨_, rfl, by decide⟩, ⟨_, rfl, by decide⟩⟩

/-- C12: when every parent the store hands to `Reconcile` (the answer of a
`Get` or of an `Update`) has at most one condition per type, every condition
list `Reconcile` passes to `Status().Update` is the upsert of its line (the
Available / Unknown upsert at line 100, the Available / Unknown `Finalizing`
upsert at line 147, the Degraded / True `Finalizing` upsert at line 174)
into a list with at most one condition per type, has itself at most one
condition per type, and when the existing entry of the upserted type has the
upserted status, the entry of that type in the list passed carries the same
lastTransitionTime. -/
theorem status_updates_keep_invariant {ω ρ : Type} (r : SwxfllReconciler ω ρ)
    (now : Nat → Time) (req : Request) (store : ω) (sink : ρ)
    (hget : ∀ (s : ω) (key : NamespacedName) (q : Swxfll),
      r.Client.Get s key = .ok q → uniqueTypes q.Status.Conditions)
    (hupd : ∀ (s : ω) (o q : Swxfll),
      (r.Client.Update s o).1 = .ok q → uniqueTypes q.Status.Conditions)
    (e : Entry) (o : Swxfll)
    (he : e ∈ (Reconcile r now req ⟨store, sink, []⟩).2.log)
    (ho : e.call = .StatusUpdate o) :
    ∃ (held : List Condition) (nc : Condition) (t : Time),
      uniqueTypes held ∧ upsertAt e.line nc = true ∧
      o.Status.Conditions = SetStatusCondition held nc t ∧
      uniqueTypes o.Status.Conditions ∧
      ∀ c ∈ held, c.CondType = nc.CondType → c.Status = nc.Status →
        ∃ c2 ∈ o.Status.Conditions,
          c2.CondType = nc.CondType ∧ c2.LastTransitionTime = c.LastTransitionTime :=
  Reconcile_upserts r now req store sink hget hupd e he o ho

theorem status_updates_keep_invariant_witness :
    (⟨147, .StatusUpdate finalizingUpdate, none⟩ : Entry) ∈
      (Reconcile strictReconciler (fun _ => 50) demoRequest
        ⟨{ parent := some deletingParent }, {}, []⟩).2.log ∧
    deletingParent.Status.Conditions.map
      (fun c => (c.CondType, c.Status, c.LastTransitionTime)) =
      [("Available", .ConditionUnknown, 7)] ∧
    finalizingUpdate.Status.Conditions.map
      (fun c => (c.CondType, c.Status, c.LastTransitionTime, c.Reason)) =
      [("Available", .ConditionUnknown, 7, "Finalizing")] ∧
    ∃ (held : List Condition) (nc : Condition) (t : Time),
      uniqueTypes held ∧ upsertAt 147 nc = true ∧
      finalizingUpdate.Status.Conditions = SetStatusCondition held nc t ∧
      uniqueTypes finalizingUpdate.Status.Conditions ∧
      ∀ c ∈ held, c.CondType = nc.CondType → c.Status = nc.Status →
        ∃ c2 ∈ finalizingUpdate.Status.Conditions,
          c2.CondType = nc.CondType ∧ c2.LastTransitionTime = c.LastTransitionTime :=
  ⟨by decide, by decide, by decide,
    status_updates_keep_invariant strictReconciler (fun _ => 50) demoRequest
      { parent := some deletingParent } {} strictClient_get_unique strictClient_update_unique
      ⟨147, .StatusUpdate finalizingUpdate, none⟩ finalizingUpdate (by decide) rfl⟩

end Controller
